import Mathlib

/-!
Verification of the muralco/geometry 2D primitives library.

The development shallowly embeds the TypeScript sources (src/point.ts,
src/matrix.ts, src/angle.ts, src/aabb.ts, src/obb.ts) into Lean.

Number model: JavaScript numbers are IEEE-754 doubles.  Arithmetic on
finite values is modelled exactly over `ℚ` (the spec's stated tolerances,
e.g. the 1e-4 round-trip tolerance, absorb the rounding error that the
exact model elides).  Two places need more fidelity and get their own
models below:
* the `Float32Array` backing store of `Matrix` (binary32 rounding of
  stored coefficients) is modelled by `roundF32`;
* the `Aabb.empty()` sentinel uses `Infinity`, so the `Aabb` operations
  that touch it are modelled over `XNum`, rationals extended with `±∞`.
-/

namespace Geometry

/-- Point record `{x, y}` from src/point.ts, coordinates as exact
rationals. -/
@[ext]
structure Point where
  x : ℚ
  y : ℚ
deriving DecidableEq

/-- Affine 2×3 matrix from src/matrix.ts.  The source stores the six
coefficients `[a, b, c, d, e, f]` in a `Float32Array` in column-major
order; here they are exact rationals (see `mkF32` for the model of the
binary32 storage rounding).  The represented map is
`x' = a·x + c·y + e`, `y' = b·x + d·y + f`. -/
@[ext]
structure Matrix where
  a : ℚ
  b : ℚ
  c : ℚ
  d : ℚ
  e : ℚ
  f : ℚ
deriving DecidableEq

/-- Method `Matrix.transform({x, y})`: `{x: m[0]*x + m[2]*y + m[4], y: m[1]*x + m[3]*y + m[5]}`. -/
def Matrix.transform (m : Matrix) (p : Point) : Point :=
  { x := m.a * p.x + m.c * p.y + m.e
  , y := m.b * p.x + m.d * p.y + m.f }

/-- Method `Matrix.multiply(matrix)`: affine composition, `this` applied after the
argument (the six products/sums from src/matrix.ts lines 35-47). -/
def Matrix.multiply (m1 m2 : Matrix) : Matrix :=
  { a := m1.a * m2.a + m1.c * m2.b
  , b := m1.b * m2.a + m1.d * m2.b
  , c := m1.a * m2.c + m1.c * m2.d
  , d := m1.b * m2.c + m1.d * m2.d
  , e := m1.a * m2.e + m1.c * m2.f + m1.e
  , f := m1.b * m2.e + m1.d * m2.f + m1.f }

/-- Method `Matrix.then(matrix)`: `matrix.multiply(this)`.  Named `thenM` because
`then` is a Lean keyword. -/
def Matrix.thenM (m1 m2 : Matrix) : Matrix :=
  m2.multiply m1

/-- Private `Matrix.det()`: `m[0]*m[3] - m[1]*m[2]`. -/
def Matrix.det (m : Matrix) : ℚ :=
  m.a * m.d - m.b * m.c

/-- Method `Matrix.inverse()`: closed-form 2×2 block inversion with
`idet = 1.0 / det()`.  In `ℚ` division by zero yields `0` where the
source would produce `Infinity`/`NaN`; every claim about `inverse`
carries a non-singularity hypothesis, so that branch is never relied on. -/
def Matrix.inverse (m : Matrix) : Matrix :=
  let idet := 1 / m.det
  { a := m.d * idet
  , b := -m.b * idet
  , c := -m.c * idet
  , d := m.a * idet
  , e := (m.c * m.f - m.d * m.e) * idet
  , f := (m.b * m.e - m.a * m.f) * idet }

/-- Method `Matrix.translate(delta)`: returns `this` unchanged when
`delta.x === 0 && delta.y === 0`, otherwise copies the data and adds
`delta.x`/`delta.y` to the translation slots `data[4]`/`data[5]`. -/
def Matrix.translate (m : Matrix) (delta : Point) : Matrix :=
  if delta.x = 0 ∧ delta.y = 0 then m
  else { m with e := m.e + delta.x, f := m.f + delta.y }

/-- Constructor `Matrix.identity()`: `[1, 0, 0, 1, 0, 0]`. -/
def Matrix.identity : Matrix :=
  ⟨1, 0, 0, 1, 0, 0⟩

/-- Constructor `Matrix.translation({x, y})`: `[1, 0, 0, 1, x, y]`. -/
def Matrix.translation (p : Point) : Matrix :=
  ⟨1, 0, 0, 1, p.x, p.y⟩

/-- Constructor `Matrix.scaling(sx, sy)`: `[sx, 0, 0, sy, 0, 0]`. -/
def Matrix.scaling (sx sy : ℚ) : Matrix :=
  ⟨sx, 0, 0, sy, 0, 0⟩

/-- Method `Matrix.isTranslationOf(other)`: exact equality of the linear parts
`data[0..3]`. -/
def Matrix.isTranslationOf (m0 m1 : Matrix) : Bool :=
  decide (m0.a = m1.a ∧ m0.b = m1.b ∧ m0.c = m1.c ∧ m0.d = m1.d)

/-- Method `Matrix.hasTranslation(other, precision)`: the differences of the
translation slots, scaled by `10^precision` and passed through
`Math.round`, must not both be zero.  JavaScript `Math.round` is
`⌊x + 1/2⌋`, which is Mathlib's `round`.  The source default for
`precision` is `4`. -/
def Matrix.hasTranslation (m0 m1 : Matrix) (precision : ℕ) : Bool :=
  let multiplier : ℚ := 10 ^ precision
  decide (round ((m0.e - m1.e) * multiplier) ≠ 0 ∨
          round ((m0.f - m1.f) * multiplier) ≠ 0)

/-- Method `Matrix.hasRotation(other, precision)`: `false` when
`isTranslationOf`, otherwise rounds the two relative-rotation tangents.
In `ℚ` a zero denominator gives tangent `0` where JavaScript gives
`NaN`/`±Infinity`; no claim exercises that branch (the only claim using
`hasRotation` goes through the `isTranslationOf` short-circuit). -/
def Matrix.hasRotation (m0 m1 : Matrix) (precision : ℕ) : Bool :=
  if m0.isTranslationOf m1 then false
  else
    let tanX := (m0.a * m1.c - m0.c * m1.a) / (m0.a * m1.a + m0.c * m1.c)
    let tanY := (m0.b * m1.d - m0.d * m1.b) / (m0.b * m1.b + m0.d * m1.d)
    let multiplier : ℚ := 10 ^ precision
    decide (round (tanX * multiplier) ≠ 0 ∨ round (tanY * multiplier) ≠ 0)

/-- Method `Matrix.hasScaling(other, precision)`: compares the squared column
lengths of the two linear parts as ratios.  When a denominator is zero,
JavaScript produces `NaN` (from `0/0`) or `±Infinity` and
`Math.round(...) !== 0` is `true`; in `ℚ` the division yields `0`, so
`round((1 - 0) * 10^p) ≠ 0` is likewise `true` — the verdict agrees with
the source in every zero-denominator case. -/
def Matrix.hasScaling (m0 m1 : Matrix) (precision : ℕ) : Bool :=
  let scaleX := (m0.a * m0.a + m0.c * m0.c) / (m1.a * m1.a + m1.c * m1.c)
  let scaleY := (m0.b * m0.b + m0.d * m0.d) / (m1.b * m1.b + m1.d * m1.d)
  let multiplier : ℚ := 10 ^ precision
  decide (round ((1 - scaleX) * multiplier) ≠ 0 ∨
          round ((1 - scaleY) * multiplier) ≠ 0)

/-- Method `Matrix.equals(other)`: exact equality of all six coefficients. -/
def Matrix.equalsM (m0 m1 : Matrix) : Bool :=
  decide (m0.a = m1.a ∧ m0.b = m1.b ∧ m0.c = m1.c ∧ m0.d = m1.d ∧
          m0.e = m1.e ∧ m0.f = m1.f)

/-- C1: for every matrix `m` with non-zero determinant and every point
`p`, `m.inverse().transform(m.transform(p))` recovers `p`.  In the exact
arithmetic model the round-trip is exact, which is stronger than the
claimed ≈1e-4 floating-point tolerance. -/
theorem c1_matrix_inverse_roundtrip (m : Matrix) (p : Point)
    (h : m.det ≠ 0) :
    m.inverse.transform (m.transform p) = p := by
  have hd : m.a * m.d - m.b * m.c ≠ 0 := h
  ext <;> simp only [Matrix.transform, Matrix.inverse, Matrix.det] <;>
    field_simp <;> ring

/-- Witness for C1 at `m = [2,0,0,3,5,7]`, `p = (1, 1)`. -/
theorem c1_witness :
    Matrix.det ⟨2, 0, 0, 3, 5, 7⟩ ≠ 0 ∧
    Matrix.transform (Matrix.inverse ⟨2, 0, 0, 3, 5, 7⟩)
      (Matrix.transform ⟨2, 0, 0, 3, 5, 7⟩ ⟨1, 1⟩) = ⟨1, 1⟩ :=
  ⟨by norm_num [Matrix.det],
   c1_matrix_inverse_roundtrip ⟨2, 0, 0, 3, 5, 7⟩ ⟨1, 1⟩
     (by norm_num [Matrix.det])⟩

/-- C2: `A.multiply(B).transform(p) = A.transform(B.transform(p))`
(multiply applies the argument first), `A.then(B)` is the matrix
`B.multiply(A)`, and consequently
`A.then(B).transform(p) = B.transform(A.transform(p))`. -/
theorem c2_matrix_composition_order (A B : Matrix) (p : Point) :
    (A.multiply B).transform p = A.transform (B.transform p) ∧
    A.thenM B = B.multiply A ∧
    (A.thenM B).transform p = B.transform (A.transform p) := by
  refine ⟨?_, rfl, ?_⟩ <;>
    · ext <;> simp only [Matrix.transform, Matrix.multiply, Matrix.thenM] <;> ring

/-- C5: the optimized `Matrix.translate` (in-place add to the translation
slots, short-circuiting on a zero delta) coincides with the compositional
definition `this.then(Matrix.translation(delta))` on all six
coefficients, and a zero delta returns a matrix numerically equal to the
receiver. -/
theorem c5_translate_refines_then (m : Matrix) (delta : Point) :
    m.translate delta = m.thenM (Matrix.translation delta) ∧
    m.translate ⟨0, 0⟩ = m := by
  constructor
  · by_cases h : delta.x = 0 ∧ delta.y = 0
    · simp only [Matrix.translate, if_pos h]
      ext <;> simp [Matrix.thenM, Matrix.multiply, Matrix.translation, h.1, h.2]
    · simp only [Matrix.translate, if_neg h]
      ext <;> simp [Matrix.thenM, Matrix.multiply, Matrix.translation]
  · simp [Matrix.translate]

/-- C3 counterexample: at `m1 = Matrix.scaling(0, 0)` and
`d = (1, 0) ≠ (0, 0)`, the matrix `m2 = m1.translate(d)` has
`m1.hasScaling(m2) = true` (the squared-column-length ratio degenerates
to `0/0`, and `Math.round(NaN) !== 0` — modelled as `0/0 = 0`, giving
`round(10^4) ≠ 0`), so the claimed conjunction fails. -/
theorem c3_counterexample :
    ¬ ((Matrix.scaling 0 0).hasTranslation
          ((Matrix.scaling 0 0).translate ⟨1, 0⟩) 4 = true ∧
       (Matrix.scaling 0 0).hasRotation
          ((Matrix.scaling 0 0).translate ⟨1, 0⟩) 4 = false ∧
       (Matrix.scaling 0 0).hasScaling
          ((Matrix.scaling 0 0).translate ⟨1, 0⟩) 4 = false ∧
       (Matrix.scaling 0 0).isTranslationOf
          ((Matrix.scaling 0 0).translate ⟨1, 0⟩) = true) := by
  intro h
  have hs := h.2.2.1
  have ht : (Matrix.scaling 0 0).hasScaling
      ((Matrix.scaling 0 0).translate ⟨1, 0⟩) 4 = true := by
    norm_num [Matrix.hasScaling, Matrix.translate, Matrix.scaling, round_ofNat]
  rw [ht] at hs
  cases hs

/-- C3 (amended): for every matrix `m1` whose linear column vectors
`(a, c)` and `(b, d)` are non-zero, and every delta `d` whose translation
is detectable at precision 4 (the rounded scaled difference computed by
`hasTranslation` is non-zero), the matrix `m2 = m1.translate(d)`
satisfies `hasTranslation = true`, `hasRotation = false`,
`hasScaling = false` and `isTranslationOf = true`. -/
theorem c3_predicates_amended (m1 : Matrix) (d : Point)
    (hd : round (-d.x * 10 ^ 4 : ℚ) ≠ 0 ∨ round (-d.y * 10 ^ 4 : ℚ) ≠ 0)
    (hx : m1.a ≠ 0 ∨ m1.c ≠ 0) (hy : m1.b ≠ 0 ∨ m1.d ≠ 0) :
    m1.hasTranslation (m1.translate d) 4 = true ∧
    m1.hasRotation (m1.translate d) 4 = false ∧
    m1.hasScaling (m1.translate d) 4 = false ∧
    m1.isTranslationOf (m1.translate d) = true := by
  have hdx : ¬(d.x = 0 ∧ d.y = 0) := by
    rintro ⟨h1, h2⟩
    rcases hd with h | h <;> simp [h1, h2] at h
  have htr : m1.translate d = { m1 with e := m1.e + d.x, f := m1.f + d.y } := by
    simp [Matrix.translate, hdx]
  have hlin : m1.isTranslationOf (m1.translate d) = true := by
    rw [htr]; simp [Matrix.isTranslationOf]
  refine ⟨?_, ?_, ?_, hlin⟩
  · rw [htr]
    simp only [Matrix.hasTranslation, decide_eq_true_eq]
    have e1 : (m1.e - (m1.e + d.x)) * 10 ^ 4 = -d.x * 10 ^ 4 := by ring
    have e2 : (m1.f - (m1.f + d.y)) * 10 ^ 4 = -d.y * 10 ^ 4 := by ring
    rw [e1, e2]; exact hd
  · simp [Matrix.hasRotation, hlin]
  · have hxx : m1.a * m1.a + m1.c * m1.c ≠ 0 := by
      rcases hx with h | h
      · exact ne_of_gt (add_pos_of_pos_of_nonneg (mul_self_pos.mpr h)
          (mul_self_nonneg _))
      · exact ne_of_gt (add_pos_of_nonneg_of_pos (mul_self_nonneg _)
          (mul_self_pos.mpr h))
    have hyy : m1.b * m1.b + m1.d * m1.d ≠ 0 := by
      rcases hy with h | h
      · exact ne_of_gt (add_pos_of_pos_of_nonneg (mul_self_pos.mpr h)
          (mul_self_nonneg _))
      · exact ne_of_gt (add_pos_of_nonneg_of_pos (mul_self_nonneg _)
          (mul_self_pos.mpr h))
    rw [htr]
    simp [Matrix.hasScaling, div_self hxx, div_self hyy]

/-- Witness for C3 (amended) at `m1 = identity`, `d = (3, 4)`. -/
theorem c3_witness :
    ((round (-(3 : ℚ) * 10 ^ 4) ≠ 0 ∨ round (-(4 : ℚ) * 10 ^ 4) ≠ 0) ∧
     (Matrix.identity.a ≠ 0 ∨ Matrix.identity.c ≠ 0) ∧
     (Matrix.identity.b ≠ 0 ∨ Matrix.identity.d ≠ 0)) ∧
    (Matrix.identity.hasTranslation (Matrix.identity.translate ⟨3, 4⟩) 4 = true ∧
     Matrix.identity.hasRotation (Matrix.identity.translate ⟨3, 4⟩) 4 = false ∧
     Matrix.identity.hasScaling (Matrix.identity.translate ⟨3, 4⟩) 4 = false ∧
     Matrix.identity.isTranslationOf (Matrix.identity.translate ⟨3, 4⟩) = true) := by
  have h30000 : round (-(3 : ℚ) * 10 ^ 4) ≠ 0 := by
    have : (-(3 : ℚ) * 10 ^ 4) = ((-30000 : ℤ) : ℚ) := by norm_num
    rw [this, round_intCast]; decide
  refine ⟨⟨Or.inl h30000, Or.inl ?_, Or.inr ?_⟩,
    c3_predicates_amended Matrix.identity ⟨3, 4⟩ (Or.inl h30000)
      (Or.inl ?_) (Or.inr ?_)⟩ <;>
    norm_num [Matrix.identity]

/-- Truncated quotient used by the JavaScript `%` operator: the quotient
is rounded toward zero. -/
def jsTrunc (x : ℚ) : ℤ :=
  if 0 ≤ x then ⌊x⌋ else ⌈x⌉

/-- JavaScript remainder `a % p`: `a - p * trunc(a / p)`, which keeps the
sign of the dividend.  On doubles the remainder operation is exact, so
the rational model introduces no idealization here. -/
def jsMod (a p : ℚ) : ℚ :=
  a - p * (jsTrunc (a / p) : ℚ)

/-- Exact rational value of the double `2 * Math.PI`
(`Math.PI = 884279719003555 · 2⁻⁴⁸`; doubling a double is exact). -/
def twoPiQ : ℚ :=
  884279719003555 / 140737488355328

/-- Function `Radians.normalize(angle)` from src/angle.ts:
`const a = angle % (2 * Math.PI); return a >= 0 ? a : a + 2 * Math.PI;`. -/
def Radians.normalize (v : ℚ) : ℚ :=
  if 0 ≤ jsMod v twoPiQ then jsMod v twoPiQ else jsMod v twoPiQ + twoPiQ

/-- Function `Degrees.normalize(angle)`:
`const a = angle % 360; return a >= 0 ? a : a + 360;`. -/
def Degrees.normalize (v : ℚ) : ℚ :=
  if 0 ≤ jsMod v 360 then jsMod v 360 else jsMod v 360 + 360

/-- The normalize pattern `a % p` followed by a conditional `+ p` picks
the canonical representative `p * fract(v / p)` of `v` modulo `p`. -/
lemma jsModIf_eq_fract (p v : ℚ) (hp : 0 < p) :
    (if 0 ≤ jsMod v p then jsMod v p else jsMod v p + p) =
      p * Int.fract (v / p) := by
  have hp' : p ≠ 0 := ne_of_gt hp
  have hv : jsMod v p = p * (v / p - (jsTrunc (v / p) : ℚ)) := by
    unfold jsMod
    field_simp
  set t := v / p with htdef
  have hfr : Int.fract t = t - ⌊t⌋ := rfl
  by_cases h0 : 0 ≤ t
  · rw [hv, show jsTrunc t = ⌊t⌋ from if_pos h0]
    have hnn : (0 : ℚ) ≤ p * (t - (⌊t⌋ : ℚ)) :=
      mul_nonneg hp.le (by linarith [Int.floor_le t])
    rw [if_pos hnn, hfr]
  · push_neg at h0
    rw [hv, show jsTrunc t = ⌈t⌉ from if_neg (not_le.mpr h0)]
    by_cases hint : Int.fract t = 0
    · have hfl : ((⌊t⌋ : ℤ) : ℚ) = t := by
        rw [hfr] at hint; linarith
      have hceil : (⌈t⌉ : ℚ) = t := by
        rw [← hfl, Int.ceil_intCast, hfl]
      rw [hceil]
      simp [hint]
    · have hlt : (⌊t⌋ : ℚ) < t := by
        rcases lt_or_eq_of_le (Int.floor_le t) with h | h
        · exact h
        · exact absurd (by rw [hfr, h]; ring) hint
      have hceil : ⌈t⌉ = ⌊t⌋ + 1 := by
        refine le_antisymm (Int.ceil_le_floor_add_one t) ?_
        have h1 : (⌊t⌋ : ℤ) < ⌈t⌉ := by
          exact_mod_cast lt_of_lt_of_le hlt (Int.le_ceil t)
        omega
      rw [hceil]
      push_cast
      have hneg : p * (t - ((⌊t⌋ : ℚ) + 1)) < 0 := by
        have hf1 : t - ⌊t⌋ < 1 := by
          have := Int.fract_lt_one t
          rw [hfr] at this; exact this
        exact mul_neg_of_pos_of_neg hp (by linarith)
      rw [if_neg (not_le.mpr hneg), hfr]
      ring

/-- The canonical representative lies in `[0, p)`. -/
lemma fract_rep_mem (p t : ℚ) (hp : 0 < p) :
    0 ≤ p * Int.fract t ∧ p * Int.fract t < p := by
  constructor
  · exact mul_nonneg hp.le (Int.fract_nonneg t)
  · calc p * Int.fract t < p * 1 :=
          (mul_lt_mul_left hp).mpr (Int.fract_lt_one t)
    _ = p := mul_one p

/-- The canonical representative is invariant under adding integer
multiples of the period. -/
lemma fract_rep_period (p v : ℚ) (k : ℤ) (hp : 0 < p) :
    p * Int.fract ((v + k * p) / p) = p * Int.fract (v / p) := by
  have hp' : p ≠ 0 := ne_of_gt hp
  have hq : (v + k * p) / p = v / p + (k : ℚ) := by
    field_simp
  rw [hq, Int.fract_add_int]

/-- C6: for every input `v`, `Radians.normalize(v)` lies in `[0, 2π)` and
`Degrees.normalize(v)` lies in `[0, 360)` (period constants taken as the
exact values the code computes with), and both normalizations are
invariant under adding any integer multiple `k` of the period. -/
theorem c6_angle_normalization (v : ℚ) (k : ℤ) :
    (0 ≤ Radians.normalize v ∧ Radians.normalize v < twoPiQ) ∧
    (0 ≤ Degrees.normalize v ∧ Degrees.normalize v < 360) ∧
    Radians.normalize (v + k * twoPiQ) = Radians.normalize v ∧
    Degrees.normalize (v + k * 360) = Degrees.normalize v := by
  have hp2 : (0 : ℚ) < twoPiQ := by norm_num [twoPiQ]
  have hp3 : (0 : ℚ) < 360 := by norm_num
  have hr : ∀ w : ℚ, Radians.normalize w = twoPiQ * Int.fract (w / twoPiQ) :=
    fun w => jsModIf_eq_fract twoPiQ w hp2
  have hd : ∀ w : ℚ, Degrees.normalize w = 360 * Int.fract (w / 360) :=
    fun w => jsModIf_eq_fract 360 w hp3
  refine ⟨?_, ?_, ?_, ?_⟩
  · rw [hr v]; exact fract_rep_mem twoPiQ _ hp2
  · rw [hd v]; exact fract_rep_mem 360 _ hp3
  · rw [hr, hr]; exact fract_rep_period twoPiQ v k hp2
  · rw [hd, hd]; exact fract_rep_period 360 v k hp3

/-- Axis-aligned bounding box from src/aabb.ts, constructor argument
order `(minX, minY, maxX, maxY)`.  This is the finite-coordinate model
(exact rationals); the operations that interact with the
`Infinity`-valued `empty()` sentinel are modelled separately on `AabbX`
below. -/
@[ext]
structure Aabb where
  minX : ℚ
  minY : ℚ
  maxX : ℚ
  maxY : ℚ
deriving DecidableEq

/-- External `Rect` record `{left, top, width, height}`. -/
@[ext]
structure Rect where
  left : ℚ
  top : ℚ
  width : ℚ
  height : ℚ
deriving DecidableEq

/-- External engine `Bbox` record `{x, x1, y, y1}` (left/right and
top/bottom edge pairs). -/
@[ext]
structure Bbox where
  x : ℚ
  x1 : ℚ
  y : ℚ
  y1 : ℚ
deriving DecidableEq

/-- Constructor `Aabb.fromRect({height, left, top, width})`:
`new Aabb(left, top, left + width, top + height)`. -/
def Aabb.fromRect (r : Rect) : Aabb :=
  ⟨r.left, r.top, r.left + r.width, r.top + r.height⟩

/-- Method `Aabb.toRect()`: `{height: maxY - minY, left: minX, top: minY, width: maxX - minX}`. -/
def Aabb.toRect (a : Aabb) : Rect :=
  ⟨a.minX, a.minY, a.maxX - a.minX, a.maxY - a.minY⟩

/-- Constructor `Aabb.fromBbox({x, x1, y, y1})`: `new Aabb(x, y, x1, y1)`. -/
def Aabb.fromBbox (b : Bbox) : Aabb :=
  ⟨b.x, b.y, b.x1, b.y1⟩

/-- Method `Aabb.toBbox()`: `{x: minX, x1: maxX, y: minY, y1: maxY}`. -/
def Aabb.toBbox (a : Aabb) : Bbox :=
  ⟨a.minX, a.maxX, a.minY, a.maxY⟩

/-- Method `Aabb.round(precision)`: `multiplier = 10 ** precision`,
`demultiplier = 1 / multiplier`, floor on mins and ceil on maxes, each
scaled back by `demultiplier`. -/
def Aabb.round (a : Aabb) (precision : ℕ) : Aabb :=
  let multiplier : ℚ := 10 ^ precision
  let demultiplier : ℚ := 1 / multiplier
  ⟨(⌊a.minX * multiplier⌋ : ℚ) * demultiplier,
   (⌊a.minY * multiplier⌋ : ℚ) * demultiplier,
   (⌈a.maxX * multiplier⌉ : ℚ) * demultiplier,
   (⌈a.maxY * multiplier⌉ : ℚ) * demultiplier⟩

/-- Method `Aabb.includes(child)`: `maxX >= child.maxX && maxY >= child.maxY &&
minX <= child.minX && minY <= child.minY`. -/
def Aabb.includes (parent child : Aabb) : Bool :=
  decide (parent.maxX ≥ child.maxX ∧ parent.maxY ≥ child.maxY ∧
          parent.minX ≤ child.minX ∧ parent.minY ≤ child.minY)

/-- Flooring at resolution `10^-p` never increases a value. -/
lemma floor_scale_le (q : ℚ) (p : ℕ) :
    (⌊q * 10 ^ p⌋ : ℚ) * (1 / 10 ^ p) ≤ q := by
  have hm : (0 : ℚ) < 10 ^ p := by positivity
  rw [mul_one_div, div_le_iff₀ hm]
  exact Int.floor_le _

/-- Ceiling at resolution `10^-p` never decreases a value. -/
lemma le_ceil_scale (q : ℚ) (p : ℕ) :
    q ≤ (⌈q * 10 ^ p⌉ : ℚ) * (1 / 10 ^ p) := by
  have hm : (0 : ℚ) < 10 ^ p := by positivity
  rw [mul_one_div, le_div_iff₀ hm]
  exact Int.le_ceil _

/-- C8: `Aabb.round(precision)` rounds outward — the result's mins never
exceed the original mins, its maxes never fall below the original maxes,
and hence the rounded box `includes` the original. -/
theorem c8_round_outward (a : Aabb) (precision : ℕ) :
    (a.round precision).minX ≤ a.minX ∧
    (a.round precision).minY ≤ a.minY ∧
    a.maxX ≤ (a.round precision).maxX ∧
    a.maxY ≤ (a.round precision).maxY ∧
    (a.round precision).includes a = true := by
  have h1 := floor_scale_le a.minX precision
  have h2 := floor_scale_le a.minY precision
  have h3 := le_ceil_scale a.maxX precision
  have h4 := le_ceil_scale a.maxY precision
  refine ⟨h1, h2, h3, h4, ?_⟩
  simp only [Aabb.includes, Aabb.round, decide_eq_true_eq]
  exact ⟨h3, h4, h1, h2⟩

/-- C9: for a valid box (`minX ≤ maxX`, `minY ≤ maxY`) the Rect and Bbox
interchange conversions round-trip exactly on all four coordinates. -/
theorem c9_interchange_roundtrip (a : Aabb)
    (_h1 : a.minX ≤ a.maxX) (_h2 : a.minY ≤ a.maxY) :
    Aabb.fromRect a.toRect = a ∧ Aabb.fromBbox a.toBbox = a := by
  constructor <;> ext <;>
    simp [Aabb.fromRect, Aabb.toRect, Aabb.fromBbox, Aabb.toBbox]

/-- Witness for C9 at the box `(0, 0, 2, 3)`. -/
theorem c9_witness :
    ((Aabb.mk 0 0 2 3).minX ≤ (Aabb.mk 0 0 2 3).maxX ∧
     (Aabb.mk 0 0 2 3).minY ≤ (Aabb.mk 0 0 2 3).maxY) ∧
    (Aabb.fromRect (Aabb.mk 0 0 2 3).toRect = Aabb.mk 0 0 2 3 ∧
     Aabb.fromBbox (Aabb.mk 0 0 2 3).toBbox = Aabb.mk 0 0 2 3) :=
  ⟨⟨by norm_num, by norm_num⟩,
   c9_interchange_roundtrip (Aabb.mk 0 0 2 3) (by norm_num) (by norm_num)⟩

/-- JavaScript number extended with the two infinities, the coordinate
domain of the `Aabb` operations that interact with the `empty()`
sentinel `(Infinity, Infinity, -Infinity, -Infinity)`.  `NaN` is outside
the library's documented value space (the spec restricts inputs to
finite numbers plus this sentinel) and is not represented. -/
inductive XNum where
  | negInf : XNum
  | fin : ℚ → XNum
  | posInf : XNum
deriving DecidableEq

/-- JavaScript `<=` on non-NaN doubles. -/
def XNum.leb : XNum → XNum → Bool
  | .negInf, _ => true
  | _, .posInf => true
  | .fin a, .fin b => decide (a ≤ b)
  | _, _ => false

/-- Model of `Math.min` on non-NaN doubles. -/
def XNum.minJ (x y : XNum) : XNum :=
  if x.leb y then x else y

/-- Model of `Math.max` on non-NaN doubles. -/
def XNum.maxJ (x y : XNum) : XNum :=
  if x.leb y then y else x

lemma XNum.leb_refl (x : XNum) : x.leb x = true := by
  cases x <;> simp [XNum.leb]

lemma XNum.leb_total (x y : XNum) : x.leb y = true ∨ y.leb x = true := by
  cases x <;> cases y <;> simp [XNum.leb]
  exact le_total _ _

lemma XNum.leb_maxJ_left (x y : XNum) : x.leb (XNum.maxJ x y) = true := by
  unfold XNum.maxJ
  by_cases h : x.leb y = true
  · simp [h]
  · simpa [h] using XNum.leb_refl x

lemma XNum.leb_maxJ_right (x y : XNum) : y.leb (XNum.maxJ x y) = true := by
  unfold XNum.maxJ
  by_cases h : x.leb y = true
  · simpa [h] using XNum.leb_refl y
  · rcases XNum.leb_total x y with h2 | h2
    · exact absurd h2 h
    · simpa [h] using h2

lemma XNum.minJ_leb_left (x y : XNum) : (XNum.minJ x y).leb x = true := by
  unfold XNum.minJ
  by_cases h : x.leb y = true
  · simpa [h] using XNum.leb_refl x
  · rcases XNum.leb_total x y with h2 | h2
    · exact absurd h2 h
    · simpa [h] using h2

lemma XNum.minJ_leb_right (x y : XNum) : (XNum.minJ x y).leb y = true := by
  unfold XNum.minJ
  by_cases h : x.leb y = true
  · simp [h]
  · simpa [h] using XNum.leb_refl y

lemma XNum.minJ_posInf_left (x : XNum) : XNum.minJ .posInf x = x := by
  cases x <;> simp [XNum.minJ, XNum.leb]

lemma XNum.minJ_posInf_right (x : XNum) : XNum.minJ x .posInf = x := by
  cases x <;> simp [XNum.minJ, XNum.leb]

lemma XNum.maxJ_negInf_left (x : XNum) : XNum.maxJ .negInf x = x := by
  cases x <;> simp [XNum.maxJ, XNum.leb]

lemma XNum.maxJ_negInf_right (x : XNum) : XNum.maxJ x .negInf = x := by
  cases x <;> simp [XNum.maxJ, XNum.leb]

/-- Axis-aligned bounding box over the extended coordinate domain, used
for the operations that fold from the `empty()` sentinel. -/
@[ext]
structure AabbX where
  minX : XNum
  minY : XNum
  maxX : XNum
  maxY : XNum
deriving DecidableEq

/-- Constructor `Aabb.empty()`: `new Aabb(Infinity, Infinity, -Infinity, -Infinity)`. -/
def AabbX.empty : AabbX :=
  ⟨.posInf, .posInf, .negInf, .negInf⟩

/-- Method `Aabb.unionInPlace(other)`: component-wise `Math.min` of mins and
`Math.max` of maxes (modelled functionally on the accumulator). -/
def AabbX.unionInPlace (acc item : AabbX) : AabbX :=
  ⟨XNum.minJ acc.minX item.minX, XNum.minJ acc.minY item.minY,
   XNum.maxJ acc.maxX item.maxX, XNum.maxJ acc.maxY item.maxY⟩

/-- Variadic `Aabb.union(...aabbs)`: `reduce` of `unionInPlace` starting
from `Aabb.empty()`. -/
def AabbX.union (aabbs : List AabbX) : AabbX :=
  aabbs.foldl AabbX.unionInPlace AabbX.empty

/-- Method `Aabb.includes(child)` on the extended domain: `maxX >= child.maxX &&
maxY >= child.maxY && minX <= child.minX && minY <= child.minY`. -/
def AabbX.includes (parent child : AabbX) : Bool :=
  child.maxX.leb parent.maxX && child.maxY.leb parent.maxY &&
  parent.minX.leb child.minX && parent.minY.leb child.minY

/-- Method `Aabb.isValid()` on the extended domain: `minX <= maxX && minY <= maxY`. -/
def AabbX.isValid (a : AabbX) : Bool :=
  a.minX.leb a.maxX && a.minY.leb a.maxY

/-- C7: `Aabb.union(a, Aabb.empty())` returns `a` itself for every valid
box `a`, and for all boxes `a`, `b` the union `includes` both. -/
theorem c7_union_identity_containment (a b : AabbX) :
    (AabbX.isValid a = true → AabbX.union [a, AabbX.empty] = a) ∧
    (AabbX.union [a, b]).includes a = true ∧
    (AabbX.union [a, b]).includes b = true := by
  have hempty : ∀ x : AabbX, AabbX.unionInPlace AabbX.empty x = x := by
    intro x
    simp [AabbX.unionInPlace, AabbX.empty, XNum.minJ_posInf_left,
      XNum.maxJ_negInf_left]
  have hfold2 : ∀ x y : AabbX,
      AabbX.union [x, y] = AabbX.unionInPlace x y := by
    intro x y
    simp [AabbX.union, List.foldl, hempty]
  refine ⟨fun _ => ?_, ?_, ?_⟩
  · rw [hfold2]
    simp [AabbX.unionInPlace, AabbX.empty, XNum.minJ_posInf_right,
      XNum.maxJ_negInf_right]
  · rw [hfold2]
    simp only [AabbX.includes, AabbX.unionInPlace, Bool.and_eq_true]
    exact ⟨⟨⟨XNum.leb_maxJ_left _ _, XNum.leb_maxJ_left _ _⟩,
      XNum.minJ_leb_left _ _⟩, XNum.minJ_leb_left _ _⟩
  · rw [hfold2]
    simp only [AabbX.includes, AabbX.unionInPlace, Bool.and_eq_true]
    exact ⟨⟨⟨XNum.leb_maxJ_right _ _, XNum.leb_maxJ_right _ _⟩,
      XNum.minJ_leb_right _ _⟩, XNum.minJ_leb_right _ _⟩

/-- Witness for C7 at `a = (0, 0, 1, 1)`, `b = (2, 2, 3, 4)` (finite
coordinates embedded in the extended domain). -/
theorem c7_witness :
    AabbX.isValid ⟨.fin 0, .fin 0, .fin 1, .fin 1⟩ = true ∧
    AabbX.union [⟨.fin 0, .fin 0, .fin 1, .fin 1⟩, AabbX.empty] =
      ⟨.fin 0, .fin 0, .fin 1, .fin 1⟩ ∧
    (AabbX.union [⟨.fin 0, .fin 0, .fin 1, .fin 1⟩,
        ⟨.fin 2, .fin 2, .fin 3, .fin 4⟩]).includes
      ⟨.fin 0, .fin 0, .fin 1, .fin 1⟩ = true ∧
    (AabbX.union [⟨.fin 0, .fin 0, .fin 1, .fin 1⟩,
        ⟨.fin 2, .fin 2, .fin 3, .fin 4⟩]).includes
      ⟨.fin 2, .fin 2, .fin 3, .fin 4⟩ = true := by
  have hvalid : AabbX.isValid ⟨.fin 0, .fin 0, .fin 1, .fin 1⟩ = true := by
    simp [AabbX.isValid, XNum.leb]
  exact ⟨hvalid,
    (c7_union_identity_containment ⟨.fin 0, .fin 0, .fin 1, .fin 1⟩
      ⟨.fin 2, .fin 2, .fin 3, .fin 4⟩).1 hvalid,
    (c7_union_identity_containment ⟨.fin 0, .fin 0, .fin 1, .fin 1⟩
      ⟨.fin 2, .fin 2, .fin 3, .fin 4⟩).2.1,
    (c7_union_identity_containment ⟨.fin 0, .fin 0, .fin 1, .fin 1⟩
      ⟨.fin 2, .fin 2, .fin 3, .fin 4⟩).2.2⟩

/-- Size record `{width, height}` from src/primitives.ts. -/
@[ext]
structure Size where
  width : ℚ
  height : ℚ
deriving DecidableEq

/-- Oriented bounding box from src/obb.ts: a local-space size and a
local-to-global transformation matrix. -/
@[ext]
structure Obb where
  size : Size
  space : Matrix
deriving DecidableEq

/-- Getter `Obb.width`. -/
def Obb.width (o : Obb) : ℚ :=
  o.size.width

/-- Getter `Obb.height`. -/
def Obb.height (o : Obb) : ℚ :=
  o.size.height

/-- Method `Obb.scalePoint(point, nextObb)`: each `this.width || 1` substitutes
`1` when the dimension is `0` (the only falsy rational), then maps the
point by the ratio of the substituted extents. -/
def Obb.scalePoint (o : Obb) (point : Point) (nextObb : Obb) : Point :=
  let prevWidth := if o.width = 0 then 1 else o.width
  let prevHeight := if o.height = 0 then 1 else o.height
  let nextWidth := if nextObb.width = 0 then 1 else nextObb.width
  let nextHeight := if nextObb.height = 0 then 1 else nextObb.height
  ⟨point.x / prevWidth * nextWidth, point.y / prevHeight * nextHeight⟩

/-- C10: `prev.scalePoint(p, next)` returns exactly
`{x: (p.x / w0) * w1, y: (p.y / h0) * h1}` where each dimension equal to
`0` is replaced by `1`, and the divisors after substitution are never
zero. -/
theorem c10_scalePoint_zero_substitution (p : Point) (prev nextObb : Obb) :
    prev.scalePoint p nextObb =
      ⟨p.x / (if prev.width = 0 then 1 else prev.width) *
         (if nextObb.width = 0 then 1 else nextObb.width),
       p.y / (if prev.height = 0 then 1 else prev.height) *
         (if nextObb.height = 0 then 1 else nextObb.height)⟩ ∧
    (if prev.width = 0 then (1 : ℚ) else prev.width) ≠ 0 ∧
    (if prev.height = 0 then (1 : ℚ) else prev.height) ≠ 0 := by
  refine ⟨rfl, ?_, ?_⟩
  · by_cases h : prev.width = 0 <;> simp [h]
  · by_cases h : prev.height = 0 <;> simp [h]

/-- Round-half-to-even to an integer (IEEE-754 default tie-breaking). -/
def roundHalfEven (x : ℚ) : ℤ :=
  if x - ⌊x⌋ < 1 / 2 then ⌊x⌋
  else if 1 / 2 < x - ⌊x⌋ then ⌊x⌋ + 1
  else if ⌊x⌋ % 2 = 0 then ⌊x⌋ else ⌊x⌋ + 1

/-- Binary32 rounding of a positive rational magnitude: quantum
`2^(e - 23)` where `e` is the binade exponent clamped below at `-126`
(the subnormal range rounds at the fixed quantum `2^-149`). -/
def roundF32mag (a : ℚ) : ℚ :=
  (roundHalfEven (a * 2 ^ (23 - max (Int.log 2 a) (-126))) : ℚ) *
    2 ^ (max (Int.log 2 a) (-126) - 23)

/-- Binary32 (single-precision) rounding of a rational, modelling a store
into the `Float32Array` that backs every `Matrix`.  The model covers the
finite, non-overflowing range (binade at most 127); no claim evaluates
it beyond that. -/
def roundF32 (q : ℚ) : ℚ :=
  if q = 0 then 0
  else if q < 0 then -roundF32mag (-q) else roundF32mag q

/-- Matrix construction through the `Float32Array` store: the six
coefficients handed to `new Float32Array([a, b, c, d, e, f])` are each
rounded to binary32. -/
def Matrix.mkF32 (a b c d e f : ℚ) : Matrix :=
  ⟨roundF32 a, roundF32 b, roundF32 c, roundF32 d, roundF32 e, roundF32 f⟩

/-- Constructor `Matrix.translation({x, y})` as executed on the `Float32Array`
store. -/
def Matrix.translationF32 (p : Point) : Matrix :=
  Matrix.mkF32 1 0 0 1 p.x p.y

/-- Exact rational value of the double-precision literal `0.1`. -/
def q01 : ℚ :=
  3602879701896397 / 36028797018963968

lemma q01_pos : (0 : ℚ) < q01 := by
  norm_num [q01]

lemma log_q01 : Int.log 2 q01 = -4 := by
  have h1 : ((2 : ℚ) ^ (-4 : ℤ)) ≤ q01 := by
    rw [show ((2 : ℚ) ^ (-4 : ℤ)) = 1 / 16 by norm_num]
    norm_num [q01]
  have h2 : q01 < (2 : ℚ) ^ (-3 : ℤ) := by
    rw [show ((2 : ℚ) ^ (-3 : ℤ)) = 1 / 8 by norm_num]
    norm_num [q01]
  have ha : (-4 : ℤ) ≤ Int.log 2 q01 :=
    (Int.zpow_le_iff_le_log (by norm_num) q01_pos).mp h1
  have hb : Int.log 2 q01 < -3 :=
    (Int.lt_zpow_iff_log_lt (by norm_num) q01_pos).mp h2
  omega

lemma roundF32_q01 : roundF32 q01 = 13421773 / 134217728 := by
  have hne : ¬q01 = 0 := ne_of_gt q01_pos
  have hnlt : ¬q01 < 0 := not_lt.mpr q01_pos.le
  rw [roundF32, if_neg hne, if_neg hnlt, roundF32mag, log_q01]
  have hmax : max (-4 : ℤ) (-126) = -4 := by decide
  rw [hmax]
  have hp27 : ((2 : ℚ) ^ (23 - (-4 : ℤ))) = 134217728 := by
    norm_num
  have hpm27 : ((2 : ℚ) ^ ((-4 : ℤ) - 23)) = 1 / 134217728 := by
    norm_num
  rw [hp27, hpm27]
  have harg : q01 * 134217728 = 3602879701896397 / 268435456 := by
    norm_num [q01]
  rw [harg]
  have hfloor : ⌊(3602879701896397 / 268435456 : ℚ)⌋ = 13421772 := by
    rw [Int.floor_eq_iff]
    constructor <;> norm_num
  have hround : roundHalfEven (3602879701896397 / 268435456 : ℚ) = 13421773 := by
    rw [roundHalfEven, hfloor]
    rw [if_neg (by norm_num), if_pos (by norm_num)]
    decide
  rw [hround]
  norm_num

/-- C4: the `Float32Array` store rounds every coefficient to binary32,
so for the double-precision input `x = 0.1` the translation matrix built
from `{x, y} = (0.1, 0.1)` transforms the origin to an x-coordinate that
differs from `x`. -/
theorem c4_float32_storage_rounding :
    ((Matrix.translationF32 ⟨q01, q01⟩).transform ⟨0, 0⟩).x ≠ q01 := by
  have hx : ((Matrix.translationF32 ⟨q01, q01⟩).transform ⟨0, 0⟩).x =
      roundF32 q01 := by
    simp [Matrix.transform, Matrix.translationF32, Matrix.mkF32]
  rw [hx, roundF32_q01]
  norm_num [q01]
